import Mathlib

/-!
Shallow embedding of the ball-in-spinning-hexagon simulation
(src/spinning-hexagon-py/main.py) and proofs of its specified properties.

Vectors are pairs of reals; the Python helper functions are translated
one-to-one (vector_add, vector_sub, vector_mul, dot, normalize,
closest_point_on_segment, wall_velocity_at_point, compute_hexagon_vertices),
and the per-edge collision block of the main loop (lines 197-241) is the
function resolve_edge, with its inward-normal computation (lines 208-220)
factored out as resolve_normal.  The exact Euler accumulation of the
gravity/integration lines (174-182) is modelled over ℚ for exact evaluation.
-/

namespace Hexagon

noncomputable section

/-- A 2D vector, as in the Python tuples. -/
abbrev Vec := ℝ × ℝ

/-- Source vector_add: componentwise sum. -/
def vector_add (a b : Vec) : Vec := (a.1 + b.1, a.2 + b.2)

/-- Source vector_sub: componentwise difference. -/
def vector_sub (a b : Vec) : Vec := (a.1 - b.1, a.2 - b.2)

/-- Source vector_mul: scale a vector by a scalar. -/
def vector_mul (v : Vec) (s : ℝ) : Vec := (v.1 * s, v.2 * s)

/-- Source dot: dot product. -/
def dot (a b : Vec) : ℝ := a.1 * b.1 + a.2 * b.2

/-- math.hypot(x, y) = sqrt(x² + y²). -/
def hypot (x y : ℝ) : ℝ := Real.sqrt (x * x + y * y)

/-- Source normalize: v/|v|, and (0,0) when the magnitude is zero. -/
def normalize (v : Vec) : Vec :=
  if hypot v.1 v.2 = 0 then (0, 0)
  else (v.1 / hypot v.1 v.2, v.2 / hypot v.1 v.2)

/-- Source closest_point_on_segment: project P on the line AB, clamp the
parameter to [0,1]; returns (A, 0) for a zero-length segment. -/
def closest_point_on_segment (A B P : Vec) : Vec × ℝ :=
  let ABx := B.1 - A.1
  let ABy := B.2 - A.2
  let ab_squared := ABx * ABx + ABy * ABy
  if ab_squared = 0 then (A, 0)
  else
    let t0 := ((P.1 - A.1) * ABx + (P.2 - A.2) * ABy) / ab_squared
    let t := max 0 (min 1 t0)
    ((A.1 + t * ABx, A.2 + t * ABy), t)

/-- Source wall_velocity_at_point: rigid-body tangential velocity
(-ω·dy, ω·dx) of the rotating boundary at a point. -/
def wall_velocity_at_point (point center : Vec) (angular_speed : ℝ) : Vec :=
  (-angular_speed * (point.2 - center.2), angular_speed * (point.1 - center.1))

/-- Source compute_hexagon_vertices: the six vertices, vertex i at angle
rotation + i·π/3 on the circle of the given radius about the center. -/
def compute_hexagon_vertices (center : Vec) (radius rotation : ℝ) : List Vec :=
  (List.range 6).map fun i =>
    (center.1 + radius * Real.cos (rotation + (i : ℝ) * (Real.pi / 3)),
     center.2 + radius * Real.sin (rotation + (i : ℝ) * (Real.pi / 3)))

/-- Inward-normal computation of the collision block (main.py lines 208-220):
normalized perpendicular of the edge tangent, sign-flipped when it points away
from the hexagon center as seen from the edge midpoint. -/
def resolve_normal (A B center : Vec) : Vec :=
  let tangent : Vec := (B.1 - A.1, B.2 - A.2)
  let candidate := normalize (-tangent.2, tangent.1)
  let mid : Vec := ((A.1 + B.1) / 2, (A.2 + B.2) / 2)
  let to_center := vector_sub center mid
  if dot candidate to_center < 0 then vector_mul candidate (-1) else candidate

/-- One edge's collision check and resolution (main.py lines 197-241): find the
closest point, and when the ball overlaps and moves into the wall, reflect the
wall-relative velocity with restitution and push the ball out along the normal;
otherwise leave position and velocity unchanged. -/
def resolve_edge (A B center : Vec) (angular_speed restitution radius : ℝ)
    (pos vel : Vec) : Vec × Vec :=
  let Q := (closest_point_on_segment A B pos).1
  let diff := vector_sub pos Q
  let dist := hypot diff.1 diff.2
  if dist < radius then
    let penetration := radius - dist
    let normal := resolve_normal A B center
    let v_wall := wall_velocity_at_point Q center angular_speed
    let rel_vel := vector_sub vel v_wall
    if dot rel_vel normal < 0 then
      let v_rel_dot := dot rel_vel normal
      let rel_vel_reflected :=
        vector_sub rel_vel (vector_mul normal ((1 + restitution) * v_rel_dot))
      let new_vel := vector_add rel_vel_reflected v_wall
      (vector_add pos (vector_mul normal penetration), new_vel)
    else (pos, vel)
  else (pos, vel)

/-- Simulation constant GRAVITY (pixels/sec²). -/
def GRAVITY : ℝ := 800

/-- Simulation constant DAMPING. -/
def DAMPING : ℝ := 0.995

/-- Simulation constant RESTIUTION (the source's spelling). -/
def RESTIUTION : ℝ := 0.9

/-- Simulation constant BALL_RADIUS. -/
def BALL_RADIUS : ℝ := 10

/-- Simulation constant HEX_CENTER = (WIDTH//2, HEIGHT//2). -/
def HEX_CENTER : Vec := (400, 300)

/-- Simulation constant HEX_RADIUS. -/
def HEX_RADIUS : ℝ := 250

/-- Simulation constant HEX_ANGULAR_SPEED = radians(20) = π/9. -/
def HEX_ANGULAR_SPEED : ℝ := Real.pi / 9

/-- The six edges, as consecutive vertex pairs (V[i], V[(i+1) % 6]). -/
def edges_of (verts : List Vec) : List (Vec × Vec) :=
  verts.zip (verts.rotate 1)

/-- One full physics tick of the main loop (lines 174-241): gravity, Euler
integration, damping, rotation advance, then the six edge resolutions in
order.  State is (ball position, ball velocity, hexagon rotation). -/
def simulation_tick (dt : ℝ) (st : Vec × Vec × ℝ) : Vec × Vec × ℝ :=
  let pos := st.1
  let vel := st.2.1
  let rot := st.2.2
  let vel1 : Vec := (vel.1, vel.2 + GRAVITY * dt)
  let pos1 : Vec := (pos.1 + vel1.1 * dt, pos.2 + vel1.2 * dt)
  let vel2 : Vec := (vel1.1 * DAMPING, vel1.2 * DAMPING)
  let rot1 := rot + HEX_ANGULAR_SPEED * dt
  let verts := compute_hexagon_vertices HEX_CENTER HEX_RADIUS rot1
  let final :=
    (edges_of verts).foldl
      (fun s e =>
        resolve_edge e.1 e.2 HEX_CENTER HEX_ANGULAR_SPEED RESTIUTION
          BALL_RADIUS s.1 s.2)
      (pos1, vel2)
  (final.1, final.2, rot1)

end

/-- Exact rational model of the y-components of the gravity, integration and
damping lines (main.py 174-182): state (y, vy) becomes
(y + (vy + g·dt)·dt, (vy + g·dt)·damping). -/
def euler_tick_y (g dt damping : ℚ) (s : ℚ × ℚ) : ℚ × ℚ :=
  let v := s.2 + g * dt
  (s.1 + v * dt, v * damping)

/-! ## Helper lemmas -/

theorem hypot_nonneg (x y : ℝ) : 0 ≤ hypot x y := Real.sqrt_nonneg _

theorem hypot_pos_of_ne_zero (v : Vec) (h : v ≠ (0, 0)) : 0 < hypot v.1 v.2 := by
  have hsum : 0 < v.1 * v.1 + v.2 * v.2 := by
    rcases (not_and_or.mp (mt Prod.ext_iff.mpr h)) with h1 | h2
    · nlinarith [mul_self_pos.mpr h1, mul_self_nonneg v.2]
    · nlinarith [mul_self_pos.mpr h2, mul_self_nonneg v.1]
  exact Real.sqrt_pos.mpr hsum

theorem hypot_sq (x y : ℝ) : hypot x y * hypot x y = x * x + y * y :=
  Real.mul_self_sqrt (by nlinarith [mul_self_nonneg x, mul_self_nonneg y])

theorem normalize_unit (v : Vec) (h : v ≠ (0, 0)) :
    dot (normalize v) (normalize v) = 1 := by
  have hm : 0 < hypot v.1 v.2 := hypot_pos_of_ne_zero v h
  have hsq := hypot_sq v.1 v.2
  simp only [normalize, dot, hm.ne.symm, if_false]
  field_simp
  linarith [hsq]

theorem resolve_normal_unit (A B center : Vec) (hAB : A ≠ B) :
    dot (resolve_normal A B center) (resolve_normal A B center) = 1 := by
  have htan : ((A.2 - B.2 : ℝ), (B.1 - A.1 : ℝ)) ≠ ((0 : ℝ), (0 : ℝ)) := by
    intro hc
    apply hAB
    have h1 := congrArg Prod.fst hc
    have h2 := congrArg Prod.snd hc
    simp only at h1 h2
    exact Prod.ext_iff.mpr ⟨by linarith, by linarith⟩
  have hu := normalize_unit _ htan
  simp only [resolve_normal, neg_sub]
  split
  · simp only [dot, vector_mul] at hu ⊢
    nlinarith [hu]
  · exact hu

/-! ## Claim theorems -/

/-- C2: for every edge (A,B) with A ≠ B, the normal selected by the resolver
(the normalized perpendicular of the tangent, sign-flipped when its dot
product with the vector from the edge midpoint to the hexagon center is
negative) has a non-negative dot product with the vector from the edge
midpoint to the center, i.e. it points toward the interior regardless of
rotation or winding. -/
theorem resolve_normal_inward (A B center : Vec) (hAB : A ≠ B) :
    0 ≤ dot (resolve_normal A B center)
        (vector_sub center ((A.1 + B.1) / 2, (A.2 + B.2) / 2)) := by
  simp only [resolve_normal]
  split
  · rename_i h
    simp only [dot, vector_mul, vector_sub] at h ⊢
    nlinarith [h]
  · rename_i h
    exact not_lt.mp h

/-- Witness for C2 at the concrete edge A = (0,0), B = (1,0) with
center (0,0). -/
theorem resolve_normal_inward_witness :
    (((0 : ℝ), (0 : ℝ)) : Vec) ≠ ((1 : ℝ), (0 : ℝ)) ∧
      0 ≤ dot (resolve_normal ((0 : ℝ), (0 : ℝ)) ((1 : ℝ), (0 : ℝ)) ((0 : ℝ), (0 : ℝ)))
          (vector_sub ((0 : ℝ), (0 : ℝ))
            ((((0 : ℝ) + 1) / 2), (((0 : ℝ) + 0) / 2))) :=
  ⟨by norm_num [Prod.ext_iff], resolve_normal_inward _ _ _ (by norm_num [Prod.ext_iff])⟩

/-! Concrete contact scenario used by several witnesses: the wall is the
segment from (0,0) to (2,0) of a boundary centered at (1,-5) that is not
rotating, the ball of radius 1 sits at (1,-1/2); the resolved inward normal is
(0,-1), the contact point is (1,0), the wall velocity is (0,0). -/

theorem wit_Q : (((1 : ℝ), (0 : ℝ)) : Vec) =
    (closest_point_on_segment ((0:ℝ), (0:ℝ)) ((2:ℝ), (0:ℝ)) ((1:ℝ), (-1/2 : ℝ))).1 := by
  simp only [closest_point_on_segment]
  norm_num [Prod.ext_iff]

theorem wit_normal : (((0 : ℝ), (-1 : ℝ)) : Vec) =
    resolve_normal ((0:ℝ), (0:ℝ)) ((2:ℝ), (0:ℝ)) ((1:ℝ), (-5:ℝ)) := by
  have hs4 : Real.sqrt ((-(0 - 0) : ℝ) * -(0 - 0) + (2 - 0) * (2 - 0)) = 2 := by
    rw [show ((-(0 - 0) : ℝ) * -(0 - 0) + (2 - 0) * (2 - 0)) = 2 ^ 2 by norm_num]
    exact Real.sqrt_sq (by norm_num)
  simp only [resolve_normal, normalize, hypot, hs4]
  norm_num [dot, vector_sub, vector_mul, Prod.ext_iff]

theorem wit_wall : (((0 : ℝ), (0 : ℝ)) : Vec) =
    wall_velocity_at_point ((1:ℝ), (0:ℝ)) ((1:ℝ), (-5:ℝ)) 0 := by
  norm_num [wall_velocity_at_point, Prod.ext_iff]

theorem wit_vsub :
    vector_sub ((1:ℝ), (-1/2 : ℝ)) ((1:ℝ), (0:ℝ)) = ((0:ℝ), (-1/2 : ℝ)) := by
  norm_num [vector_sub, Prod.ext_iff]

theorem wit_hypot : hypot (vector_sub ((1:ℝ), (-1/2 : ℝ)) ((1:ℝ), (0:ℝ))).1
    (vector_sub ((1:ℝ), (-1/2 : ℝ)) ((1:ℝ), (0:ℝ))).2 = 1/2 := by
  rw [wit_vsub]
  rw [hypot, show ((0:ℝ) * 0 + (-1/2 : ℝ) * (-1/2 : ℝ)) = (1/2 : ℝ) ^ 2 by norm_num]
  exact Real.sqrt_sq (by norm_num)

theorem wit_dist : hypot (vector_sub ((1:ℝ), (-1/2 : ℝ)) ((1:ℝ), (0:ℝ))).1
    (vector_sub ((1:ℝ), (-1/2 : ℝ)) ((1:ℝ), (0:ℝ))).2 < 1 := by
  rw [wit_hypot]; norm_num

/-- C1: whenever the approach gate passes (inward normal n, wall velocity w,
ball velocity v, with dot(v - w, n) < 0, and the ball overlapping the edge),
the resolver sets the new ball velocity to
(v - w) - (1 + restitution)·((v - w)·n)·n + w. -/
theorem collision_response (A B center : Vec) (ω e r : ℝ) (pos vel Q n w rv : Vec)
    (hQ : Q = (closest_point_on_segment A B pos).1)
    (hn : n = resolve_normal A B center)
    (hw : w = wall_velocity_at_point Q center ω)
    (hrv : rv = vector_sub vel w)
    (hdist : hypot (vector_sub pos Q).1 (vector_sub pos Q).2 < r)
    (hgate : dot rv n < 0) :
    (resolve_edge A B center ω e r pos vel).2 =
      vector_add (vector_sub rv (vector_mul n ((1 + e) * dot rv n))) w := by
  subst hrv hw hn hQ
  simp only [resolve_edge]
  rw [if_pos hdist, if_pos hgate]

/-- Witness for C1: the spec's scenario of a stationary wall (the segment from
(0,0) to (2,0), angular speed 0) with resolved inward unit normal (0,-1), ball
velocity (0,10) and restitution 0.9 yields post-collision velocity (0,-9). -/
theorem collision_response_witness :
    (((1 : ℝ), (0 : ℝ)) : Vec) =
      (closest_point_on_segment ((0:ℝ), (0:ℝ)) ((2:ℝ), (0:ℝ)) ((1:ℝ), (-1/2 : ℝ))).1 ∧
    (((0 : ℝ), (-1 : ℝ)) : Vec) =
      resolve_normal ((0:ℝ), (0:ℝ)) ((2:ℝ), (0:ℝ)) ((1:ℝ), (-5:ℝ)) ∧
    hypot (vector_sub ((1:ℝ), (-1/2 : ℝ)) ((1:ℝ), (0:ℝ))).1
        (vector_sub ((1:ℝ), (-1/2 : ℝ)) ((1:ℝ), (0:ℝ))).2 < 1 ∧
    dot (vector_sub ((0:ℝ), (10:ℝ)) ((0:ℝ), (0:ℝ))) ((0:ℝ), (-1:ℝ)) < 0 ∧
    (resolve_edge ((0:ℝ), (0:ℝ)) ((2:ℝ), (0:ℝ)) ((1:ℝ), (-5:ℝ)) 0 (9/10) 1
        ((1:ℝ), (-1/2 : ℝ)) ((0:ℝ), (10:ℝ))).2 = ((0:ℝ), (-9:ℝ)) := by
  have hrv : (((0 : ℝ), (10 : ℝ)) : Vec) =
      vector_sub ((0:ℝ), (10:ℝ)) ((0:ℝ), (0:ℝ)) := by
    norm_num [vector_sub, Prod.ext_iff]
  have hgate : dot (vector_sub ((0:ℝ), (10:ℝ)) ((0:ℝ), (0:ℝ))) ((0:ℝ), (-1:ℝ)) < 0 := by
    norm_num [dot, vector_sub]
  have hgate' : dot (((0:ℝ), (10:ℝ)) : Vec) ((0:ℝ), (-1:ℝ)) < 0 := by
    norm_num [dot]
  have hmain := collision_response ((0:ℝ), (0:ℝ)) ((2:ℝ), (0:ℝ)) ((1:ℝ), (-5:ℝ))
    0 (9/10) 1 ((1:ℝ), (-1/2 : ℝ)) ((0:ℝ), (10:ℝ)) ((1:ℝ), (0:ℝ)) ((0:ℝ), (-1:ℝ))
    ((0:ℝ), (0:ℝ)) ((0:ℝ), (10:ℝ)) wit_Q wit_normal wit_wall hrv wit_dist hgate'
  refine ⟨wit_Q, wit_normal, wit_dist, hgate, ?_⟩
  rw [hmain]
  norm_num [vector_add, vector_sub, vector_mul, dot, Prod.ext_iff]

theorem reflect_energy (a b n1 n2 e : ℝ) (hu : n1 * n1 + n2 * n2 = 1)
    (he0 : 0 ≤ e) (he1 : e ≤ 1) :
    (a - n1 * ((1 + e) * (a * n1 + b * n2))) * (a - n1 * ((1 + e) * (a * n1 + b * n2))) +
      (b - n2 * ((1 + e) * (a * n1 + b * n2))) * (b - n2 * ((1 + e) * (a * n1 + b * n2))) ≤
      a * a + b * b := by
  have key : (a - n1 * ((1 + e) * (a * n1 + b * n2))) *
        (a - n1 * ((1 + e) * (a * n1 + b * n2))) +
        (b - n2 * ((1 + e) * (a * n1 + b * n2))) *
        (b - n2 * ((1 + e) * (a * n1 + b * n2))) =
      a * a + b * b - (1 + e) * (1 - e) * (a * n1 + b * n2) ^ 2 := by
    linear_combination ((1 + e) ^ 2 * (a * n1 + b * n2) ^ 2) * hu
  have hk : 0 ≤ (1 + e) * (1 - e) * (a * n1 + b * n2) ^ 2 :=
    mul_nonneg (mul_nonneg (by linarith) (by linarith)) (sq_nonneg _)
  linarith [key, hk]

/-- C3: with restitution in [0,1], the kinetic energy of the ball measured in
the wall's reference frame (squared magnitude of the velocity relative to the
wall at the contact point) never increases across a single edge resolution. -/
theorem energy_nonincrease (A B center : Vec) (ω e r : ℝ) (pos vel Q w : Vec)
    (hAB : A ≠ B) (he0 : 0 ≤ e) (he1 : e ≤ 1)
    (hQ : Q = (closest_point_on_segment A B pos).1)
    (hw : w = wall_velocity_at_point Q center ω) :
    dot (vector_sub (resolve_edge A B center ω e r pos vel).2 w)
        (vector_sub (resolve_edge A B center ω e r pos vel).2 w) ≤
      dot (vector_sub vel w) (vector_sub vel w) := by
  have hu : dot (resolve_normal A B center) (resolve_normal A B center) = 1 :=
    resolve_normal_unit A B center hAB
  subst hw hQ
  simp only [resolve_edge]
  split
  · split
    · set n := resolve_normal A B center with hn
      set wv := wall_velocity_at_point (closest_point_on_segment A B pos).1 center ω with hwv
      simp only [dot, vector_sub, vector_add, vector_mul] at hu ⊢
      refine le_trans (le_of_eq ?_)
        (reflect_energy (vel.1 - wv.1) (vel.2 - wv.2) n.1 n.2 e hu he0 he1)
      ring
    · exact le_refl _
  · exact le_refl _

/-- Witness for C3 at the concrete contact scenario with restitution 0.9. -/
theorem energy_nonincrease_witness :
    (((0:ℝ), (0:ℝ)) : Vec) ≠ ((2:ℝ), (0:ℝ)) ∧ (0:ℝ) ≤ 9/10 ∧ (9/10 : ℝ) ≤ 1 ∧
    dot (vector_sub (resolve_edge ((0:ℝ), (0:ℝ)) ((2:ℝ), (0:ℝ)) ((1:ℝ), (-5:ℝ)) 0 (9/10) 1
            ((1:ℝ), (-1/2 : ℝ)) ((0:ℝ), (10:ℝ))).2 ((0:ℝ), (0:ℝ)))
        (vector_sub (resolve_edge ((0:ℝ), (0:ℝ)) ((2:ℝ), (0:ℝ)) ((1:ℝ), (-5:ℝ)) 0 (9/10) 1
            ((1:ℝ), (-1/2 : ℝ)) ((0:ℝ), (10:ℝ))).2 ((0:ℝ), (0:ℝ))) ≤
      dot (vector_sub ((0:ℝ), (10:ℝ)) ((0:ℝ), (0:ℝ)))
        (vector_sub ((0:ℝ), (10:ℝ)) ((0:ℝ), (0:ℝ))) :=
  ⟨by norm_num [Prod.ext_iff], by norm_num, by norm_num,
    energy_nonincrease ((0:ℝ), (0:ℝ)) ((2:ℝ), (0:ℝ)) ((1:ℝ), (-5:ℝ)) 0 (9/10) 1
      ((1:ℝ), (-1/2 : ℝ)) ((0:ℝ), (10:ℝ)) ((1:ℝ), (0:ℝ)) ((0:ℝ), (0:ℝ))
      (by norm_num [Prod.ext_iff]) (by norm_num) (by norm_num) wit_Q wit_wall⟩

/-- C4: for a single-edge face contact (the ball-center offset from the
contact point lies along the resolved inward normal) that overlaps and passes
the approach gate, the corrected ball center lies at distance at least the
ball radius from the wall, measured along the resolved inward normal: no
residual penetration. -/
theorem penetration_correction (A B center : Vec) (ω e r : ℝ) (pos vel Q n : Vec)
    (hAB : A ≠ B)
    (hQ : Q = (closest_point_on_segment A B pos).1)
    (hn : n = resolve_normal A B center)
    (hdist : hypot (vector_sub pos Q).1 (vector_sub pos Q).2 < r)
    (hgate : dot (vector_sub vel (wall_velocity_at_point Q center ω)) n < 0)
    (hface : dot (vector_sub pos Q) n =
      hypot (vector_sub pos Q).1 (vector_sub pos Q).2) :
    r ≤ dot (vector_sub (resolve_edge A B center ω e r pos vel).1 Q) n := by
  have hu : dot n n = 1 := by rw [hn]; exact resolve_normal_unit A B center hAB
  have hedge : (resolve_edge A B center ω e r pos vel).1 =
      vector_add pos (vector_mul n
        (r - hypot (vector_sub pos Q).1 (vector_sub pos Q).2)) := by
    subst hn hQ
    simp only [resolve_edge]
    rw [if_pos hdist, if_pos hgate]
  rw [hedge]
  have hscale : (r - hypot (vector_sub pos Q).1 (vector_sub pos Q).2) *
        (n.1 * n.1 + n.2 * n.2) =
      r - hypot (vector_sub pos Q).1 (vector_sub pos Q).2 := by
    simp only [dot] at hu
    rw [hu]; ring
  simp only [dot, vector_sub, vector_add, vector_mul] at hface hscale ⊢
  nlinarith [hface, hscale]

/-- Witness for C4 at the concrete contact scenario: the corrected center
(1,-1) is at distance exactly 1 (the ball radius) from the wall. -/
theorem penetration_correction_witness :
    (((0:ℝ), (0:ℝ)) : Vec) ≠ ((2:ℝ), (0:ℝ)) ∧
    hypot (vector_sub ((1:ℝ), (-1/2 : ℝ)) ((1:ℝ), (0:ℝ))).1
        (vector_sub ((1:ℝ), (-1/2 : ℝ)) ((1:ℝ), (0:ℝ))).2 < 1 ∧
    dot (vector_sub ((1:ℝ), (-1/2 : ℝ)) ((1:ℝ), (0:ℝ))) ((0:ℝ), (-1:ℝ)) =
      hypot (vector_sub ((1:ℝ), (-1/2 : ℝ)) ((1:ℝ), (0:ℝ))).1
        (vector_sub ((1:ℝ), (-1/2 : ℝ)) ((1:ℝ), (0:ℝ))).2 ∧
    (1:ℝ) ≤ dot (vector_sub
        (resolve_edge ((0:ℝ), (0:ℝ)) ((2:ℝ), (0:ℝ)) ((1:ℝ), (-5:ℝ)) 0 (9/10) 1
          ((1:ℝ), (-1/2 : ℝ)) ((0:ℝ), (10:ℝ))).1 ((1:ℝ), (0:ℝ))) ((0:ℝ), (-1:ℝ)) := by
  have hface : dot (vector_sub ((1:ℝ), (-1/2 : ℝ)) ((1:ℝ), (0:ℝ))) ((0:ℝ), (-1:ℝ)) =
      hypot (vector_sub ((1:ℝ), (-1/2 : ℝ)) ((1:ℝ), (0:ℝ))).1
        (vector_sub ((1:ℝ), (-1/2 : ℝ)) ((1:ℝ), (0:ℝ))).2 := by
    rw [wit_hypot, wit_vsub]
    norm_num [dot]
  have hgate : dot (vector_sub ((0:ℝ), (10:ℝ))
      (wall_velocity_at_point ((1:ℝ), (0:ℝ)) ((1:ℝ), (-5:ℝ)) 0)) ((0:ℝ), (-1:ℝ)) < 0 := by
    rw [← wit_wall]
    norm_num [dot, vector_sub]
  exact ⟨by norm_num [Prod.ext_iff], wit_dist, hface,
    penetration_correction ((0:ℝ), (0:ℝ)) ((2:ℝ), (0:ℝ)) ((1:ℝ), (-5:ℝ)) 0 (9/10) 1
      ((1:ℝ), (-1/2 : ℝ)) ((0:ℝ), (10:ℝ)) ((1:ℝ), (0:ℝ)) ((0:ℝ), (-1:ℝ))
      (by norm_num [Prod.ext_iff]) wit_Q wit_normal wit_dist hgate hface⟩

/-- C5: when the ball geometrically overlaps an edge but is not moving into it
in the wall's frame (dot(ball velocity - wall velocity, normal) ≥ 0), that
edge's resolution is skipped entirely: position and velocity are unchanged. -/
theorem gate_skip (A B center : Vec) (ω e r : ℝ) (pos vel Q n : Vec)
    (hQ : Q = (closest_point_on_segment A B pos).1)
    (hn : n = resolve_normal A B center)
    (hdist : hypot (vector_sub pos Q).1 (vector_sub pos Q).2 < r)
    (hgate : 0 ≤ dot (vector_sub vel (wall_velocity_at_point Q center ω)) n) :
    resolve_edge A B center ω e r pos vel = (pos, vel) := by
  subst hn hQ
  simp only [resolve_edge]
  rw [if_pos hdist, if_neg (not_lt.mpr hgate)]

/-- Witness for C5: a ball overlapping the concrete wall but moving away from
it, with velocity (0,-10), is left untouched. -/
theorem gate_skip_witness :
    hypot (vector_sub ((1:ℝ), (-1/2 : ℝ)) ((1:ℝ), (0:ℝ))).1
        (vector_sub ((1:ℝ), (-1/2 : ℝ)) ((1:ℝ), (0:ℝ))).2 < 1 ∧
    0 ≤ dot (vector_sub ((0:ℝ), (-10:ℝ))
        (wall_velocity_at_point ((1:ℝ), (0:ℝ)) ((1:ℝ), (-5:ℝ)) 0)) ((0:ℝ), (-1:ℝ)) ∧
    resolve_edge ((0:ℝ), (0:ℝ)) ((2:ℝ), (0:ℝ)) ((1:ℝ), (-5:ℝ)) 0 (9/10) 1
        ((1:ℝ), (-1/2 : ℝ)) ((0:ℝ), (-10:ℝ)) =
      (((1:ℝ), (-1/2 : ℝ)), ((0:ℝ), (-10:ℝ))) := by
  have hgate : 0 ≤ dot (vector_sub ((0:ℝ), (-10:ℝ))
      (wall_velocity_at_point ((1:ℝ), (0:ℝ)) ((1:ℝ), (-5:ℝ)) 0)) ((0:ℝ), (-1:ℝ)) := by
    rw [← wit_wall]
    norm_num [dot, vector_sub]
  exact ⟨wit_dist, hgate,
    gate_skip ((0:ℝ), (0:ℝ)) ((2:ℝ), (0:ℝ)) ((1:ℝ), (-5:ℝ)) 0 (9/10) 1
      ((1:ℝ), (-1/2 : ℝ)) ((0:ℝ), (-10:ℝ)) ((1:ℝ), (0:ℝ)) ((0:ℝ), (-1:ℝ))
      wit_Q wit_normal wit_dist hgate⟩

/-- C6: closest_point_on_segment returns a parameter t in [0,1] with
Q = A + t·(B-A); when P projects at or beyond B (and A ≠ B) it returns t = 1
and Q = B; and for the degenerate segment A = B it returns (A, 0) without
performing a division. -/
theorem closest_point_on_segment_spec (A B P : Vec) :
    0 ≤ (closest_point_on_segment A B P).2 ∧
    (closest_point_on_segment A B P).2 ≤ 1 ∧
    (closest_point_on_segment A B P).1 =
      vector_add A (vector_mul (vector_sub B A) (closest_point_on_segment A B P).2) ∧
    (A ≠ B →
      dot (vector_sub B A) (vector_sub B A) ≤ dot (vector_sub P A) (vector_sub B A) →
      (closest_point_on_segment A B P).2 = 1 ∧ (closest_point_on_segment A B P).1 = B) ∧
    (A = B → closest_point_on_segment A B P = (A, 0)) := by
  by_cases hz : (B.1 - A.1) * (B.1 - A.1) + (B.2 - A.2) * (B.2 - A.2) = 0
  · have hres : closest_point_on_segment A B P = (A, 0) := by
      simp only [closest_point_on_segment]
      rw [if_pos hz]
    have hBA : B = A := by
      have e1 : B.1 - A.1 = 0 := mul_self_eq_zero.mp (by
        nlinarith [mul_self_nonneg (B.1 - A.1), mul_self_nonneg (B.2 - A.2)])
      have e2 : B.2 - A.2 = 0 := mul_self_eq_zero.mp (by
        nlinarith [mul_self_nonneg (B.1 - A.1), mul_self_nonneg (B.2 - A.2)])
      exact Prod.ext_iff.mpr ⟨by linarith, by linarith⟩
    rw [hres]
    refine ⟨le_refl 0, zero_le_one, ?_, ?_, fun _ => rfl⟩
    · exact Prod.ext_iff.mpr ⟨by simp [vector_add, vector_mul, vector_sub],
        by simp [vector_add, vector_mul, vector_sub]⟩
    · intro hAB _
      exact absurd hBA.symm hAB
  · have hres : closest_point_on_segment A B P =
        ((A.1 + max 0 (min 1 (((P.1 - A.1) * (B.1 - A.1) + (P.2 - A.2) * (B.2 - A.2)) /
            ((B.1 - A.1) * (B.1 - A.1) + (B.2 - A.2) * (B.2 - A.2)))) * (B.1 - A.1),
          A.2 + max 0 (min 1 (((P.1 - A.1) * (B.1 - A.1) + (P.2 - A.2) * (B.2 - A.2)) /
            ((B.1 - A.1) * (B.1 - A.1) + (B.2 - A.2) * (B.2 - A.2)))) * (B.2 - A.2)),
         max 0 (min 1 (((P.1 - A.1) * (B.1 - A.1) + (P.2 - A.2) * (B.2 - A.2)) /
            ((B.1 - A.1) * (B.1 - A.1) + (B.2 - A.2) * (B.2 - A.2))))) := by
      simp only [closest_point_on_segment]
      rw [if_neg hz]
    rw [hres]
    refine ⟨le_max_left 0 _, max_le zero_le_one (min_le_left 1 _), ?_, ?_, ?_⟩
    · exact Prod.ext_iff.mpr ⟨by simp only [vector_add, vector_mul, vector_sub]; ring,
        by simp only [vector_add, vector_mul, vector_sub]; ring⟩
    · intro _ hbey
      simp only [dot, vector_sub] at hbey
      have hab2 : 0 < (B.1 - A.1) * (B.1 - A.1) + (B.2 - A.2) * (B.2 - A.2) :=
        lt_of_le_of_ne (add_nonneg (mul_self_nonneg _) (mul_self_nonneg _)) (Ne.symm hz)
      have ht0 : 1 ≤ ((P.1 - A.1) * (B.1 - A.1) + (P.2 - A.2) * (B.2 - A.2)) /
          ((B.1 - A.1) * (B.1 - A.1) + (B.2 - A.2) * (B.2 - A.2)) :=
        (one_le_div hab2).mpr hbey
      have hone : max 0 (min 1 (((P.1 - A.1) * (B.1 - A.1) + (P.2 - A.2) * (B.2 - A.2)) /
          ((B.1 - A.1) * (B.1 - A.1) + (B.2 - A.2) * (B.2 - A.2)))) = 1 := by
        rw [min_eq_left ht0, max_eq_right zero_le_one]
      rw [hone]
      exact ⟨rfl, Prod.ext_iff.mpr ⟨by ring, by ring⟩⟩
    · intro hab
      exact absurd (by rw [hab]; ring) hz

/-- Witness for C6 at the segment from (0,0) to (1,0) with P = (2,5), which
projects beyond B: the returned parameter is 1 and Q = B. -/
theorem closest_point_on_segment_spec_witness :
    (((0:ℝ), (0:ℝ)) : Vec) ≠ ((1:ℝ), (0:ℝ)) ∧
    dot (vector_sub ((1:ℝ), (0:ℝ)) ((0:ℝ), (0:ℝ)))
        (vector_sub ((1:ℝ), (0:ℝ)) ((0:ℝ), (0:ℝ))) ≤
      dot (vector_sub ((2:ℝ), (5:ℝ)) ((0:ℝ), (0:ℝ)))
        (vector_sub ((1:ℝ), (0:ℝ)) ((0:ℝ), (0:ℝ))) ∧
    ((closest_point_on_segment ((0:ℝ), (0:ℝ)) ((1:ℝ), (0:ℝ)) ((2:ℝ), (5:ℝ))).2 = 1 ∧
     (closest_point_on_segment ((0:ℝ), (0:ℝ)) ((1:ℝ), (0:ℝ)) ((2:ℝ), (5:ℝ))).1 =
       ((1:ℝ), (0:ℝ))) := by
  have h1 : (((0:ℝ), (0:ℝ)) : Vec) ≠ ((1:ℝ), (0:ℝ)) := by norm_num [Prod.ext_iff]
  have h2 : dot (vector_sub ((1:ℝ), (0:ℝ)) ((0:ℝ), (0:ℝ)))
      (vector_sub ((1:ℝ), (0:ℝ)) ((0:ℝ), (0:ℝ))) ≤
      dot (vector_sub ((2:ℝ), (5:ℝ)) ((0:ℝ), (0:ℝ)))
        (vector_sub ((1:ℝ), (0:ℝ)) ((0:ℝ), (0:ℝ))) := by
    norm_num [dot, vector_sub]
  exact ⟨h1, h2, (closest_point_on_segment_spec _ _ _).2.2.2.1 h1 h2⟩

theorem clamp_quad_min (apx apy abx aby s t : ℝ) (h0 : 0 ≤ s) (h1 : s ≤ 1)
    (hz : abx * abx + aby * aby ≠ 0)
    (ht : t = max 0 (min 1 ((apx * abx + apy * aby) / (abx * abx + aby * aby)))) :
    (apx - t * abx) * (apx - t * abx) + (apy - t * aby) * (apy - t * aby) ≤
      (apx - s * abx) * (apx - s * abx) + (apy - s * aby) * (apy - s * aby) := by
  have hab2 : 0 < abx * abx + aby * aby :=
    lt_of_le_of_ne (add_nonneg (mul_self_nonneg _) (mul_self_nonneg _)) (Ne.symm hz)
  have key : (apx - s * abx) * (apx - s * abx) + (apy - s * aby) * (apy - s * aby) -
        ((apx - t * abx) * (apx - t * abx) + (apy - t * aby) * (apy - t * aby)) =
      (s - t) * ((s + t) * (abx * abx + aby * aby) -
        2 * (apx * abx + apy * aby)) := by ring
  rcases le_total ((apx * abx + apy * aby) / (abx * abx + aby * aby)) 0 with hc | hc
  · have ht' : t = 0 := by
      rw [ht, min_eq_right (le_trans hc zero_le_one), max_eq_left hc]
    have hdle : apx * abx + apy * aby ≤ 0 := by
      have h := mul_le_mul_of_nonneg_right hc (le_of_lt hab2)
      rwa [div_mul_cancel₀ _ hz, zero_mul] at h
    have hstep : 0 ≤ (s - t) * ((s + t) * (abx * abx + aby * aby) -
        2 * (apx * abx + apy * aby)) := by
      rw [ht']
      have hs1 : 0 ≤ s * (abx * abx + aby * aby) := mul_nonneg h0 hab2.le
      nlinarith [mul_nonneg h0 (neg_nonneg.mpr hdle), hs1, mul_nonneg h0 hs1]
    linarith [key, hstep]
  · rcases le_total 1 ((apx * abx + apy * aby) / (abx * abx + aby * aby)) with hc1 | hc1
    · have ht' : t = 1 := by
        rw [ht, min_eq_left hc1, max_eq_right zero_le_one]
      have hdge : abx * abx + aby * aby ≤ apx * abx + apy * aby := by
        have h := mul_le_mul_of_nonneg_right hc1 (le_of_lt hab2)
        rwa [div_mul_cancel₀ _ hz, one_mul] at h
      have f1 : s - 1 ≤ 0 := by linarith
      have f2 : (s + 1) * (abx * abx + aby * aby) -
          2 * (apx * abx + apy * aby) ≤ 0 := by
        have := mul_nonneg (neg_nonneg.mpr f1) hab2.le
        nlinarith [this, hdge]
      have hstep : 0 ≤ (s - t) * ((s + t) * (abx * abx + aby * aby) -
          2 * (apx * abx + apy * aby)) := by
        rw [ht']
        nlinarith [mul_nonneg (neg_nonneg.mpr f1) (neg_nonneg.mpr f2)]
      linarith [key, hstep]
    · have ht' : t = (apx * abx + apy * aby) / (abx * abx + aby * aby) := by
        rw [ht, min_eq_right hc1, max_eq_right hc]
      have hd : (apx * abx + apy * aby) / (abx * abx + aby * aby) *
          (abx * abx + aby * aby) = apx * abx + apy * aby := div_mul_cancel₀ _ hz
      have hstep : 0 ≤ (s - t) * ((s + t) * (abx * abx + aby * aby) -
          2 * (apx * abx + apy * aby)) := by
        rw [ht']
        have e : (s - (apx * abx + apy * aby) / (abx * abx + aby * aby)) *
              ((s + (apx * abx + apy * aby) / (abx * abx + aby * aby)) *
                (abx * abx + aby * aby) - 2 * (apx * abx + apy * aby)) =
            (s - (apx * abx + apy * aby) / (abx * abx + aby * aby)) ^ 2 *
              (abx * abx + aby * aby) := by
          linear_combination (2 * (s - (apx * abx + apy * aby) /
            (abx * abx + aby * aby))) * hd
        rw [e]
        exact mul_nonneg (sq_nonneg _) hab2.le
      linarith [key, hstep]

/-- C10: the point returned by closest_point_on_segment minimizes the distance
to P over the whole segment: for every parameter s in [0,1], the distance from
P to the returned point is at most the distance from P to A + s·(B-A). -/
theorem closest_point_minimizes (A B P : Vec) (s : ℝ) (h0 : 0 ≤ s) (h1 : s ≤ 1) :
    hypot (vector_sub P (closest_point_on_segment A B P).1).1
        (vector_sub P (closest_point_on_segment A B P).1).2 ≤
      hypot (vector_sub P (vector_add A (vector_mul (vector_sub B A) s))).1
        (vector_sub P (vector_add A (vector_mul (vector_sub B A) s))).2 := by
  simp only [hypot]
  apply Real.sqrt_le_sqrt
  by_cases hz : (B.1 - A.1) * (B.1 - A.1) + (B.2 - A.2) * (B.2 - A.2) = 0
  · have e1 : B.1 - A.1 = 0 := mul_self_eq_zero.mp (by
      nlinarith [mul_self_nonneg (B.1 - A.1), mul_self_nonneg (B.2 - A.2)])
    have e2 : B.2 - A.2 = 0 := mul_self_eq_zero.mp (by
      nlinarith [mul_self_nonneg (B.1 - A.1), mul_self_nonneg (B.2 - A.2)])
    simp only [closest_point_on_segment]
    rw [if_pos hz]
    simp only [vector_sub, vector_add, vector_mul]
    apply le_of_eq
    rw [e1, e2]
    ring
  · simp only [closest_point_on_segment]
    rw [if_neg hz]
    simp only [vector_sub, vector_add, vector_mul]
    have hmin := clamp_quad_min (P.1 - A.1) (P.2 - A.2) (B.1 - A.1) (B.2 - A.2) s
      (max 0 (min 1 (((P.1 - A.1) * (B.1 - A.1) + (P.2 - A.2) * (B.2 - A.2)) /
        ((B.1 - A.1) * (B.1 - A.1) + (B.2 - A.2) * (B.2 - A.2))))) h0 h1 hz rfl
    refine le_trans (le_of_eq (by ring)) (le_trans hmin (le_of_eq (by ring)))

/-- Witness for C10 at the segment from (0,0) to (1,0), P = (2,5), s = 1/2. -/
theorem closest_point_minimizes_witness :
    (0:ℝ) ≤ 1/2 ∧ (1/2:ℝ) ≤ 1 ∧
    hypot (vector_sub ((2:ℝ), (5:ℝ))
        (closest_point_on_segment ((0:ℝ), (0:ℝ)) ((1:ℝ), (0:ℝ)) ((2:ℝ), (5:ℝ))).1).1
      (vector_sub ((2:ℝ), (5:ℝ))
        (closest_point_on_segment ((0:ℝ), (0:ℝ)) ((1:ℝ), (0:ℝ)) ((2:ℝ), (5:ℝ))).1).2 ≤
    hypot (vector_sub ((2:ℝ), (5:ℝ)) (vector_add ((0:ℝ), (0:ℝ))
        (vector_mul (vector_sub ((1:ℝ), (0:ℝ)) ((0:ℝ), (0:ℝ))) (1/2)))).1
      (vector_sub ((2:ℝ), (5:ℝ)) (vector_add ((0:ℝ), (0:ℝ))
        (vector_mul (vector_sub ((1:ℝ), (0:ℝ)) ((0:ℝ), (0:ℝ))) (1/2)))).2 :=
  ⟨by norm_num, by norm_num,
    closest_point_minimizes ((0:ℝ), (0:ℝ)) ((1:ℝ), (0:ℝ)) ((2:ℝ), (5:ℝ)) (1/2)
      (by norm_num) (by norm_num)⟩

/-- C7: compute_hexagon_vertices returns exactly 6 points, vertex k at
c + r·(cos(θ + k·π/3), sin(θ + k·π/3)) for k = 0..5, and rotating by a full
turn (θ + 2π) yields the same point set. -/
theorem compute_hexagon_vertices_spec (c : Vec) (r θ : ℝ) :
    (compute_hexagon_vertices c r θ).length = 6 ∧
    compute_hexagon_vertices c r θ =
      [(c.1 + r * Real.cos (θ + 0 * (Real.pi / 3)), c.2 + r * Real.sin (θ + 0 * (Real.pi / 3))),
       (c.1 + r * Real.cos (θ + 1 * (Real.pi / 3)), c.2 + r * Real.sin (θ + 1 * (Real.pi / 3))),
       (c.1 + r * Real.cos (θ + 2 * (Real.pi / 3)), c.2 + r * Real.sin (θ + 2 * (Real.pi / 3))),
       (c.1 + r * Real.cos (θ + 3 * (Real.pi / 3)), c.2 + r * Real.sin (θ + 3 * (Real.pi / 3))),
       (c.1 + r * Real.cos (θ + 4 * (Real.pi / 3)), c.2 + r * Real.sin (θ + 4 * (Real.pi / 3))),
       (c.1 + r * Real.cos (θ + 5 * (Real.pi / 3)), c.2 + r * Real.sin (θ + 5 * (Real.pi / 3)))] ∧
    (∀ p : Vec, p ∈ compute_hexagon_vertices c r (θ + 2 * Real.pi) ↔
      p ∈ compute_hexagon_vertices c r θ) := by
  have hlist : compute_hexagon_vertices c r (θ + 2 * Real.pi) =
      compute_hexagon_vertices c r θ := by
    simp only [compute_hexagon_vertices]
    congr 1
    funext i
    have hc : θ + 2 * Real.pi + (i : ℝ) * (Real.pi / 3) =
        θ + (i : ℝ) * (Real.pi / 3) + 2 * Real.pi := by ring
    rw [hc, Real.cos_add_two_pi, Real.sin_add_two_pi]
  refine ⟨rfl, ?_, fun p => by rw [hlist]⟩
  simp only [compute_hexagon_vertices, List.range_succ, List.range_zero,
    List.map_append, List.map_cons, List.map_nil, List.nil_append,
    List.cons_append]
  norm_num

theorem euler_tick_y_closed (g dt : ℚ) (n : ℕ) :
    (euler_tick_y g dt 1)^[n] (0, 0) =
      (g * dt ^ 2 * (n * (n + 1)) / 2, g * dt * n) := by
  induction n with
  | zero => simp
  | succ k ih =>
    rw [Function.iterate_succ_apply', ih]
    simp only [euler_tick_y]
    refine Prod.ext_iff.mpr ⟨?_, ?_⟩
    · push_cast; ring
    · push_cast; ring

/-- C8 counterexample: iterating the per-tick gravity and Euler-integration
update of main.py (velocity += g·dt then position += velocity·dt, damping
factor 1) for 1 second at the configured 60 ticks/second, with g = 800 and
zero initial velocity, does not change the y-position by 400. -/
theorem euler_one_second_not_400 :
    (((euler_tick_y 800 (1/60) 1)^[60] (0, 0)).1 : ℚ) ≠ 400 := by
  rw [euler_tick_y_closed]
  norm_num

/-- C8 amended: the same iteration changes the y-position by exactly
800·(1/60)²·(60·61)/2 = 1220/3 ≈ 406.67 units; 0.5·g·t² = 400 is only the
dt → 0 limit, not the Euler accumulation at the configured tick rate. -/
theorem euler_one_second_exact :
    (((euler_tick_y 800 (1/60) 1)^[60] (0, 0)).1 : ℚ) = 1220/3 := by
  rw [euler_tick_y_closed]
  norm_num

/-- C9: the per-tick physics update (gravity, Euler integration, damping,
rotation advance, then the six edge resolutions in fixed order) is a
deterministic function of the previous ball position, ball velocity, hexagon
rotation and dt: equal inputs produce equal outputs. -/
theorem simulation_tick_deterministic (dt : ℝ) (s1 s2 : Vec × Vec × ℝ)
    (h : s1 = s2) : simulation_tick dt s1 = simulation_tick dt s2 := by
  rw [h]

/-- Witness for C9 at a concrete state. -/
theorem simulation_tick_deterministic_witness :
    ((((0:ℝ), (0:ℝ)), ((0:ℝ), (0:ℝ)), (0:ℝ)) : Vec × Vec × ℝ) =
      ((((0:ℝ), (0:ℝ)), ((0:ℝ), (0:ℝ)), (0:ℝ)) : Vec × Vec × ℝ) ∧
    simulation_tick 1 (((0:ℝ), (0:ℝ)), ((0:ℝ), (0:ℝ)), (0:ℝ)) =
      simulation_tick 1 (((0:ℝ), (0:ℝ)), ((0:ℝ), (0:ℝ)), (0:ℝ)) :=
  ⟨rfl, simulation_tick_deterministic 1 _ _ rfl⟩

end Hexagon
